import Mathlib

/-!
Verification of the dependency version inspection and diff engine of
dep-inspector, a tool that inspects or compares versions of a Go module
dependency.  The definitions below are shallow embeddings of the Go
functions of the repository (referenced by file and line); the theorems
settle the specification claims about them.

Modelling conventions:
* Go slices become `List`, Go `map[string]int` becomes an association
  list read through `mapGet` (a missing key reads as the zero value `0`,
  exactly like a Go map read).
* Go strings are Lean `String`s; indices are character indices (the Go
  source uses byte indices, which coincide for the ASCII data involved).
* Fallible code (a Go expression that can panic) returns `Option`.
-/

/-! ## Semantic diff engine

`processFindings` from `src/unnamed/part_010` lines 646-679 (identical,
up to preallocation hints, to `src/main.go` lines 483-510).  The first
loop walks the old findings, searching the new findings with
`slices.IndexFunc`; the index is only compared against `-1` and used to
read `newVerFindings[idx]`, which together is exactly `List.find?`
(first element satisfying the predicate).  The second loop walks the new
findings symmetrically. -/

/-- First loop of `processFindings`: classify every old finding as
removed (no match among the new findings) or stale (keeping the first
matching new finding). -/
def diffOldLoop {T : Type} (newVerFindings : List T) (equal : T → T → Bool) :
    List T → List T × List T
  | [] => ([], [])
  | finding :: rest =>
    let acc := diffOldLoop newVerFindings equal rest
    match newVerFindings.find? (fun finding2 => equal finding finding2) with
    | none => (finding :: acc.1, acc.2)
    | some matched => (acc.1, matched :: acc.2)

/-- Second loop of `processFindings`: a new finding with no match among
the old findings is classified as added. -/
def diffNewLoop {T : Type} (oldVerFindings : List T) (equal : T → T → Bool) :
    List T → List T
  | [] => []
  | finding :: rest =>
    let acc := diffNewLoop oldVerFindings equal rest
    match oldVerFindings.find? (fun finding2 => equal finding finding2) with
    | none => finding :: acc
    | some _ => acc

/-- Embedding of `processFindings(oldVerFindings, newVerFindings, equal)`; returns
`(removedFindings, staleFindings, newFindings)`. -/
def processFindings {T : Type} (oldVerFindings newVerFindings : List T)
    (equal : T → T → Bool) : List T × List T × List T :=
  let firstPass := diffOldLoop newVerFindings equal oldVerFindings
  (firstPass.1, firstPass.2, diffNewLoop oldVerFindings equal newVerFindings)

theorem diffOldLoop_eq {T : Type} (newL : List T) (equal : T → T → Bool)
    (oldL : List T) :
    diffOldLoop newL equal oldL =
      (oldL.filter (fun x => !(newL.any (fun y => equal x y))),
       oldL.filterMap (fun x => newL.find? (fun y => equal x y))) := by
  induction oldL with
  | nil => rfl
  | cons x rest ih =>
    simp only [diffOldLoop, ih, List.filter_cons, List.filterMap_cons]
    cases h : newL.find? (fun y => equal x y) with
    | none =>
      have hany : newL.any (fun y => equal x y) = false := by
        rw [List.find?_eq_none] at h
        simp only [List.any_eq_false]
        exact fun y hy => h y hy
      simp [hany]
    | some matched =>
      have hany : newL.any (fun y => equal x y) = true := by
        rw [List.any_eq_true]
        exact ⟨matched, List.mem_of_find?_eq_some h, List.find?_some h⟩
      simp [hany]

theorem diffNewLoop_eq {T : Type} (oldL : List T) (equal : T → T → Bool)
    (newL : List T) :
    diffNewLoop oldL equal newL =
      newL.filter (fun y => !(oldL.any (fun x => equal y x))) := by
  induction newL with
  | nil => rfl
  | cons y rest ih =>
    simp only [diffNewLoop, ih, List.filter_cons]
    cases h : oldL.find? (fun x => equal y x) with
    | none =>
      have hany : oldL.any (fun x => equal y x) = false := by
        rw [List.find?_eq_none] at h
        simp only [List.any_eq_false]
        exact fun x hx => h x hx
      simp [hany]
    | some matched =>
      have hany : oldL.any (fun x => equal y x) = true := by
        rw [List.any_eq_true]
        exact ⟨matched, List.mem_of_find?_eq_some h, List.find?_some h⟩
      simp [hany]

/-- C1. `processFindings` classifies every element exactly once: the
removed list is exactly the old findings with no `equal`-match among the
new findings (in order); the stale list collects, for every old finding
that has a match, the first matching new finding (the new record, not
the old one); the added list is exactly the new findings with no match
among the old findings — and no other element appears in any list. -/
theorem processFindings_classification {T : Type}
    (oldL newL : List T) (equal : T → T → Bool) :
    processFindings oldL newL equal =
      (oldL.filter (fun x => !(newL.any (fun y => equal x y))),
       oldL.filterMap (fun x => newL.find? (fun y => equal x y)),
       newL.filter (fun y => !(oldL.any (fun x => equal y x)))) := by
  unfold processFindings
  rw [diffOldLoop_eq, diffNewLoop_eq]

/-- C2 counterexample. The claimed identity
`len(added) + len(stale) == len(New)` fails for the equality predicate
that holds everywhere: diffing `[0]` against `[1, 2]` yields one stale
finding, no added findings, yet the new list has two elements (the first
identity `len(removed) + len(stale) == len(Old)` does hold here). -/
theorem processFindings_second_count_cex :
    ¬((processFindings [0] [1, 2] (fun _ _ => true)).2.2.length +
        (processFindings [0] [1, 2] (fun _ _ => true)).2.1.length =
      [1, 2].length) := by decide

/-- Helper: counting a predicate and its negation covers the list. -/
theorem countP_not_add {T : Type} (p : T → Bool) (l : List T) :
    l.countP (fun x => !(p x)) + l.countP p = l.length := by
  induction l with
  | nil => rfl
  | cons x rest ih =>
    simp only [List.countP_cons, List.length_cons]
    cases h : p x <;> simp [h] <;> omega

/-- Helper: `countP` of a disjunction of disjoint predicates adds up. -/
theorem countP_or_disjoint {T : Type} (p q : T → Bool) (l : List T)
    (hdisj : ∀ x ∈ l, ¬(p x = true ∧ q x = true)) :
    l.countP (fun x => p x || q x) = l.countP p + l.countP q := by
  induction l with
  | nil => rfl
  | cons x rest ih =>
    have hx := hdisj x (List.mem_cons_self x rest)
    have ih' := ih (fun z hz => hdisj z (List.mem_cons_of_mem x hz))
    simp only [List.countP_cons, ih']
    cases hp : p x <;> cases hq : q x <;> simp_all <;> omega

/-- Helper: in a pairwise `equal`-free list, an element matched by `y` is
counted exactly once (with `equal` symmetric and transitive). -/
theorem countP_equal_one {T : Type} (equal : T → T → Bool)
    (hsymm : ∀ a b, equal a b = equal b a)
    (htrans : ∀ a b c, equal a b = true → equal b c = true → equal a c = true)
    (y : T) :
    ∀ (oldL : List T), oldL.Pairwise (fun a b => equal a b = false) →
      (∃ x ∈ oldL, equal y x = true) →
      oldL.countP (fun x => equal x y) = 1 := by
  intro oldL
  induction oldL with
  | nil => rintro _ ⟨x, hx, _⟩; exact absurd hx (List.not_mem_nil x)
  | cons x rest ih =>
    rw [List.pairwise_cons]
    rintro ⟨hxrest, hrest⟩ ⟨x0, hx0mem, hx0⟩
    cases hxy : equal x y with
    | true =>
      have hzero : rest.countP (fun z => equal z y) = 0 := by
        rw [List.countP_eq_zero]
        intro z hz hcontra
        have h1 : equal y z = true := by rw [hsymm]; exact hcontra
        have h2 : equal x z = true := htrans x y z hxy h1
        rw [hxrest z hz] at h2
        exact Bool.false_ne_true h2
      simp [List.countP_cons, hxy, hzero]
    | false =>
      have hx0rest : x0 ∈ rest := by
        rcases List.mem_cons.mp hx0mem with heq | hmem
        · exfalso
          have hcontra : equal x y = true := by
            rw [hsymm, ← heq]; exact hx0
          rw [hxy] at hcontra
          exact Bool.false_ne_true hcontra
        · exact hmem
      have hcount := ih hrest ⟨x0, hx0rest, hx0⟩
      simp [List.countP_cons, hxy, hcount]

/-- Helper: matched-element counts agree between the two sides of the
diff when `equal` is symmetric and transitive and both lists are
pairwise `equal`-free. -/
theorem matchCount_comm {T : Type} (equal : T → T → Bool)
    (hsymm : ∀ a b, equal a b = equal b a)
    (htrans : ∀ a b c, equal a b = true → equal b c = true → equal a c = true)
    (oldL : List T) (hold : oldL.Pairwise (fun a b => equal a b = false)) :
    ∀ (newL : List T), newL.Pairwise (fun a b => equal a b = false) →
      oldL.countP (fun x => newL.any (fun y => equal x y)) =
        newL.countP (fun y => oldL.any (fun x => equal y x)) := by
  intro newL
  induction newL with
  | nil => intro _; simp [List.countP_eq_zero]
  | cons y ys ih =>
    rw [List.pairwise_cons]
    rintro ⟨hyys, hys⟩
    have ih' := ih hys
    have hsplit : oldL.countP (fun x => (y :: ys).any (fun z => equal x z)) =
        oldL.countP (fun x => equal x y) +
          oldL.countP (fun x => ys.any (fun z => equal x z)) := by
      have hfun : (fun x => (y :: ys).any (fun z => equal x z)) =
          (fun x => equal x y || ys.any (fun z => equal x z)) := by
        funext x; simp [List.any_cons]
      rw [hfun]
      apply countP_or_disjoint
      rintro x _ ⟨hxy, hxys⟩
      rcases List.any_eq_true.mp hxys with ⟨z, hz, hxz⟩
      have h1 : equal y x = true := by rw [hsymm]; exact hxy
      have h2 : equal y z = true := htrans y x z h1 hxz
      rw [hyys z hz] at h2
      exact Bool.false_ne_true h2
    rw [hsplit, List.countP_cons, ih']
    cases hmatch : oldL.any (fun x => equal y x) with
    | true =>
      rcases List.any_eq_true.mp hmatch with ⟨x0, hx0, hyx0⟩
      rw [countP_equal_one equal hsymm htrans y oldL hold ⟨x0, hx0, hyx0⟩]
      simp [Nat.add_comm]
    | false =>
      have hzero : oldL.countP (fun x => equal x y) = 0 := by
        rw [List.countP_eq_zero]
        intro x hx hcontra
        have h1 : equal y x = true := by rw [hsymm]; exact hcontra
        exact (List.any_eq_false.mp hmatch x hx) h1
      simp [hzero]

/-- C2 (amended). The first count identity
`len(removed) + len(stale) = len(Old)` holds for every equality
predicate; the second, `len(added) + len(stale) = len(New)`, holds
additionally when the predicate is symmetric and transitive and each
input list is pairwise `equal`-free (without those assumptions it fails,
see the counterexample). -/
theorem processFindings_count_identities {T : Type}
    (oldL newL : List T) (equal : T → T → Bool) :
    (processFindings oldL newL equal).1.length +
        (processFindings oldL newL equal).2.1.length = oldL.length ∧
    ((∀ a b, equal a b = equal b a) →
      (∀ a b c, equal a b = true → equal b c = true → equal a c = true) →
      oldL.Pairwise (fun a b => equal a b = false) →
      newL.Pairwise (fun a b => equal a b = false) →
      (processFindings oldL newL equal).2.2.length +
          (processFindings oldL newL equal).2.1.length = newL.length) := by
  have hproc : processFindings oldL newL equal =
      (oldL.filter (fun x => !(newL.any (fun y => equal x y))),
       oldL.filterMap (fun x => newL.find? (fun y => equal x y)),
       newL.filter (fun y => !(oldL.any (fun x => equal y x)))) := by
    unfold processFindings
    rw [diffOldLoop_eq, diffNewLoop_eq]
  have hstale : (oldL.filterMap (fun x => newL.find? (fun y => equal x y))).length =
      oldL.countP (fun x => newL.any (fun y => equal x y)) := by
    rw [List.length_filterMap_eq_countP]
    apply List.countP_congr
    intro x _
    rw [List.find?_isSome, List.any_eq_true]
  constructor
  · rw [hproc]
    simp only [← List.countP_eq_length_filter, hstale]
    exact countP_not_add _ oldL
  · intro hsymm htrans hold hnew
    rw [hproc]
    simp only [← List.countP_eq_length_filter, hstale]
    rw [matchCount_comm equal hsymm htrans oldL hold newL hnew]
    exact countP_not_add _ newL

/-- C2 witness. Concrete instantiation over `Fin 3` with `equal`
taken as boolean equality: diffing `[0, 1]` against `[1, 2]` satisfies
both count identities. -/
theorem processFindings_count_identities_witness :
    ((processFindings [(0 : Fin 3), 1] [1, 2] (fun a b => a == b)).1.length +
        (processFindings [(0 : Fin 3), 1] [1, 2] (fun a b => a == b)).2.1.length =
      [(0 : Fin 3), 1].length) ∧
    ((processFindings [(0 : Fin 3), 1] [1, 2] (fun a b => a == b)).2.2.length +
        (processFindings [(0 : Fin 3), 1] [1, 2] (fun a b => a == b)).2.1.length =
      [(1 : Fin 3), 2].length) := by
  have h := processFindings_count_identities [(0 : Fin 3), 1] [1, 2] (fun a b => a == b)
  exact ⟨h.1, h.2 (by decide) (by decide) (by decide) (by decide)⟩

/-! ## Capability findings and their equality predicate

Data model from `src/unnamed/part_001` lines 26-48 (same in
`src/capslock.go`): a capability finding carries the owning package,
the capability kind, a call path of function calls with source sites,
the package directory and the direct/transitive capability type.  Note
that capslock reports `Line` and `Column` as strings. -/

structure callSite where
  Filename : String
  Line : String
  Column : String
deriving DecidableEq

structure functionCall where
  Name : String
  Site : callSite
deriving DecidableEq

structure capability where
  PackageName : String
  Capability : String
  Path : List functionCall
  PackageDir : String
  CapabilityType : String
deriving DecidableEq

/-- Loop body of `capsEqual` (`src/unnamed/part_001` lines 179-195,
identical in `src/capslock.go` lines 227-243).  It runs over the
indices of `a.Path` once the two paths are known to have equal length;
we recurse over both paths in lockstep (the second list cannot run out
first).  NOTE the source itself reads

    callA := a.Path[i].Site
    callB := a.Path[i].Site

so BOTH locals are taken from `a`; the embedding mirrors that exactly,
which is why `bCall.Site` is never consulted. -/
def capsPathLoop : List functionCall → List functionCall → Bool
  | [], _ => true
  | _ :: _, [] => true
  | aCall :: aRest, bCall :: bRest =>
    if aCall.Name != bCall.Name then false
    else
      let callA := aCall.Site
      let callB := aCall.Site
      if callA.Filename != callB.Filename then false
      else if callA.Line != callB.Line then false
      else if callA.Column != callB.Column then false
      else capsPathLoop aRest bRest

/-- Embedding of `capsEqual` from `src/unnamed/part_001` lines 162-198 (identical in
`src/capslock.go` lines 210-246). -/
def capsEqual (a b : capability) : Bool :=
  if a.PackageDir != b.PackageDir then false
  else if a.PackageName != b.PackageName then false
  else if a.Capability != b.Capability then false
  else if a.CapabilityType != b.CapabilityType then false
  else if a.Path.length != b.Path.length then false
  else capsPathLoop a.Path b.Path

/-- C3 (code bug). Two capability findings that agree on package,
kind, type and hop function names but report *different* source sites
(file, line and column all differ on the only hop) are nevertheless
reported equal by `capsEqual`: the loop assigns both `callA` and
`callB` from `a.Path[i].Site`, so the site fields of `b` are never
compared, contradicting the claimed equality contract.  (The call-path
length discrimination in the same claim does hold: the second conjunct
shows paths of different lengths are never equal.) -/
theorem capsEqual_site_not_compared :
    (capsEqual
        ⟨"p", "CAPABILITY_NETWORK", [⟨"f", ⟨"a.go", "1", "2"⟩⟩], "dir", "direct"⟩
        ⟨"p", "CAPABILITY_NETWORK", [⟨"f", ⟨"b.go", "9", "9"⟩⟩], "dir", "direct"⟩ = true) ∧
    (capsEqual
        ⟨"p", "CAPABILITY_NETWORK", [⟨"f", ⟨"a.go", "1", "2"⟩⟩], "dir", "direct"⟩
        ⟨"p", "CAPABILITY_NETWORK",
          [⟨"f", ⟨"a.go", "1", "2"⟩⟩, ⟨"g", ⟨"a.go", "3", "4"⟩⟩], "dir", "direct"⟩ = false) := by
  constructor <;> rfl

/-! ## Totals/Delta aggregator

`currentTotals` from `src/unnamed/part_014` lines 251-270 (the current
revision; the earlier revision at lines 332-348 of the same file walks
only the new-findings keys).  Go maps `map[string]int` are modelled as
association lists where a write prepends its binding (leftmost binding
wins on lookup) and a read of a missing key yields the zero value `0`,
matching Go map semantics observationally. -/

def goIntMap : Type := List (String × Int)

/-- Go map read `m[k]`: the stored value, or the zero value 0. -/
def mapGet (m : goIntMap) (k : String) : Int :=
  match List.lookup k m with
  | some v => v
  | none => 0

/-- Go map write `m[k] = v`. -/
def mapSet (m : goIntMap) (k : String) (v : Int) : goIntMap :=
  (k, v) :: m

/-- Model of `maps.Keys` (collected to a slice). -/
def mapKeys (m : goIntMap) : List String :=
  m.map Prod.fst

/-- Character-list comparison underlying the model of `slices.Sort`. -/
def goStrLeb : List Char → List Char → Bool
  | [], _ => true
  | _ :: _, [] => false
  | c :: cs, d :: ds =>
    if c.val < d.val then true
    else if d.val < c.val then false
    else goStrLeb cs ds

/-- Comparison used by `slices.Sort` on `[]string`, modelled
lexicographically on characters. -/
def strLeb (a b : String) : Bool :=
  goStrLeb a.data b.data

/-- Insertion step of the model of `slices.Sort`. -/
def insertSorted (x : String) : List String → List String
  | [] => [x]
  | y :: ys => if strLeb x y then x :: y :: ys else y :: insertSorted x ys

/-- Model of `slices.Sort` on `[]string` (sorted ascending permutation; the
concrete algorithm is irrelevant, only the resulting element set is
used below). -/
def goSortStrings : List String → List String
  | [] => []
  | x :: xs => insertSorted x (goSortStrings xs)

/-- Model of `slices.Compact`: collapse each run of consecutive equal elements
into a single element. -/
def goCompact : List String → List String
  | [] => []
  | [x] => [x]
  | x :: y :: rest =>
    if x == y then goCompact (y :: rest) else x :: goCompact (y :: rest)

/-- Embedding of `currentTotals(rmFindings, sameFindings, newFindings)`; returns
`(grandTotal, currentTotalFindings, deltaTotalFindings)`:
`currentTotalFindings` starts as a clone of `sameFindings` and, for
every name in the sorted, compacted union of the three key sets,
stores `sameFindings[name] + newFindings[name]`, while
`deltaTotalFindings[name]` stores
`newFindings[name] - rmFindings[name]`. -/
def currentTotals (rmFindings sameFindings newFindings : goIntMap) :
    Int × goIntMap × goIntMap :=
  let allNames := goCompact (goSortStrings
    ((mapKeys rmFindings ++ mapKeys sameFindings) ++ mapKeys newFindings))
  allNames.foldl
    (fun acc name =>
      let total := mapGet sameFindings name + mapGet newFindings name
      (acc.1 + total,
       mapSet acc.2.1 name total,
       mapSet acc.2.2 name (mapGet newFindings name - mapGet rmFindings name)))
    (0, sameFindings, [])

theorem mapGet_mapSet (m : goIntMap) (k k' : String) (v : Int) :
    mapGet (mapSet m k v) k' = if k' = k then v else mapGet m k' := by
  by_cases h : k' = k
  · simp [mapGet, mapSet, List.lookup_cons, h]
  · have hbeq : (k' == k) = false := by simpa using h
    simp [mapGet, mapSet, List.lookup_cons, hbeq, h]

theorem mem_insertSorted (a x : String) (l : List String) :
    a ∈ insertSorted x l ↔ a = x ∨ a ∈ l := by
  induction l with
  | nil => simp [insertSorted]
  | cons y ys ih =>
    simp only [insertSorted]
    cases hxy : strLeb x y with
    | true => simp
    | false =>
      rw [if_neg (by simp [hxy])]
      simp only [List.mem_cons, ih]
      tauto

theorem mem_goSortStrings (a : String) (l : List String) :
    a ∈ goSortStrings l ↔ a ∈ l := by
  induction l with
  | nil => simp [goSortStrings]
  | cons x xs ih =>
    simp [goSortStrings, mem_insertSorted, ih]

theorem mem_goCompact (a : String) (l : List String) (h : a ∈ l) :
    a ∈ goCompact l := by
  induction l with
  | nil => exact absurd h (List.not_mem_nil a)
  | cons x xs ih =>
    cases xs with
    | nil => simpa [goCompact] using h
    | cons y ys =>
      simp only [goCompact]
      by_cases hxy : x = y
      · have hbeq : (x == y) = true := by simpa using hxy
        rw [if_pos hbeq]
        rcases List.mem_cons.mp h with rfl | hmem
        · exact ih (by rw [hxy]; exact List.mem_cons_self y ys)
        · exact ih hmem
      · have hbeq : (x == y) = false := by simpa using hxy
        rw [if_neg (by simp [hbeq])]
        rcases List.mem_cons.mp h with rfl | hmem
        · exact List.mem_cons_self a (goCompact (y :: ys))
        · exact List.mem_cons_of_mem x (ih hmem)

/-- Helper: the value stored for `name` by the `currentTotals` fold
depends only on the three input maps, so folding over any name list
containing `name` yields those values, and other names are untouched. -/
theorem currentTotals_foldl_get (rmF sameF newF : goIntMap)
    (l : List String) (acc : Int × goIntMap × goIntMap) (name : String) :
    (mapGet (l.foldl
        (fun acc name =>
          let total := mapGet sameF name + mapGet newF name
          (acc.1 + total,
           mapSet acc.2.1 name total,
           mapSet acc.2.2 name (mapGet newF name - mapGet rmF name)))
        acc).2.1 name =
      if name ∈ l then mapGet sameF name + mapGet newF name
      else mapGet acc.2.1 name) ∧
    (mapGet (l.foldl
        (fun acc name =>
          let total := mapGet sameF name + mapGet newF name
          (acc.1 + total,
           mapSet acc.2.1 name total,
           mapSet acc.2.2 name (mapGet newF name - mapGet rmF name)))
        acc).2.2 name =
      if name ∈ l then mapGet newF name - mapGet rmF name
      else mapGet acc.2.2 name) := by
  induction l generalizing acc with
  | nil => simp
  | cons x xs ih =>
    simp only [List.foldl_cons, List.mem_cons]
    refine ⟨?_, ?_⟩ <;>
    · rcases ih ((acc.1 + (mapGet sameF x + mapGet newF x),
        mapSet acc.2.1 x (mapGet sameF x + mapGet newF x),
        mapSet acc.2.2 x (mapGet newF x - mapGet rmF x))) with ⟨ih1, ih2⟩
      first
        | rw [ih1]
        | rw [ih2]
      by_cases hxs : name ∈ xs <;> by_cases hx : name = x <;>
        simp [hxs, hx, mapGet_mapSet]

/-- C4. For every category name appearing in any of the three input
maps, `currentTotals` returns `current[name] = same[name] + new[name]`
and `delta[name] = new[name] - rm[name]`, reading a missing entry as
count 0. -/
theorem currentTotals_delta_identity (rmF sameF newF : goIntMap)
    (name : String)
    (hname : name ∈ mapKeys rmF ∨ name ∈ mapKeys sameF ∨ name ∈ mapKeys newF) :
    mapGet (currentTotals rmF sameF newF).2.1 name =
        mapGet sameF name + mapGet newF name ∧
    mapGet (currentTotals rmF sameF newF).2.2 name =
        mapGet newF name - mapGet rmF name := by
  have hmem : name ∈ goCompact (goSortStrings
      ((mapKeys rmF ++ mapKeys sameF) ++ mapKeys newF)) := by
    apply mem_goCompact
    rw [mem_goSortStrings]
    simp only [List.mem_append]
    tauto
  have h := currentTotals_foldl_get rmF sameF newF
    (goCompact (goSortStrings ((mapKeys rmF ++ mapKeys sameF) ++ mapKeys newF)))
    (0, sameF, []) name
  rw [if_pos hmem] at h
  rcases h with ⟨h1, h2⟩
  rw [if_pos hmem] at h2
  exact ⟨h1, h2⟩

/-- C4 witness. With `R = {a ↦ 1}`, `S = {b ↦ 2}`, `A = {c ↦ 3}`
the identities hold at the name `a`, which appears in only one map:
`current[a] = 0 + 0` and `delta[a] = 0 - 1`. -/
theorem currentTotals_delta_identity_witness :
    mapGet (currentTotals [("a", 1)] [("b", 2)] [("c", 3)]).2.1 "a" =
        mapGet [("b", 2)] "a" + mapGet [("c", 3)] "a" ∧
    mapGet (currentTotals [("a", 1)] [("b", 2)] [("c", 3)]).2.2 "a" =
        mapGet [("c", 3)] "a" - mapGet [("a", 1)] "a" := by
  exact currentTotals_delta_identity [("a", 1)] [("b", 2)] [("c", 3)] "a"
    (Or.inl (by decide))

/-! ## Lint findings and their equality predicate

Data model from `src/unnamed/part_004` (a lint issue with the linter
id, message text, captured source lines and a `go/token.Position`).
Strings are compared character-wise; the Go source indexes by byte,
which coincides for the ASCII data these functions handle. -/

structure lintPosition where
  Filename : String
  Offset : Int
  Line : Int
  Column : Int
deriving DecidableEq

structure lintIssue where
  FromLinter : String
  Text : String
  SourceLines : List String
  Pos : lintPosition
deriving DecidableEq

/-- Model of `unicode.IsSpace` restricted to the ASCII whitespace characters
(space, tab, newline, vertical tab, form feed, carriage return). -/
def goIsSpace (c : Char) : Bool :=
  c == ' ' || c == '\t' || c == '\n' || c == '\x0b' || c == '\x0c' || c == '\r'

/-- Model of `strings.TrimSpace`: remove leading and trailing whitespace. -/
def goTrimSpace (s : String) : String :=
  ⟨((s.data.dropWhile goIsSpace).reverse.dropWhile goIsSpace).reverse⟩

/-- Model of `strings.Index(s, substr)`: position of the first occurrence of
`substr` in `s`, or none (Go: -1). -/
def goIndex : List Char → List Char → Option Nat
  | s, substr =>
    if substr.isPrefixOf s then some 0
    else
      match s with
      | [] => none
      | _ :: rest => (goIndex rest substr).map (· + 1)

/-- Embedding of `getDepRelPath` from `src/unnamed/part_004` lines 322-335 (same
logic in `src/lint.go` lines 251-265): keep only the path portion after
the dependency root and its version suffix.  `path[depVerIdx:]` is
`drop depVerIdx`, and the final `path[depVerIdx+slashIdx:]` is a
further `drop slashIdx`. -/
def getDepRelPath (dep path : String) : String :=
  match goIndex path.data dep.data with
  | none => path
  | some depIdx =>
    let depVerIdx := depIdx + dep.data.length
    match goIndex (path.data.drop depVerIdx) ['/'] with
    | none => path
    | some slashIdx => ⟨(path.data.drop depVerIdx).drop slashIdx⟩

/-- Source-line loop shared by both revisions of `issuesEqual`: compare
the captured source lines pairwise after trimming whitespace.  It runs
over the indices of `a.SourceLines` after the lengths are known to be
equal, so the second list cannot run out first. -/
def srcLinesEqual : List String → List String → Bool
  | [], _ => true
  | _ :: _, [] => true
  | a :: aRest, b :: bRest =>
    if goTrimSpace a != goTrimSpace b then false
    else srcLinesEqual aRest bRest

/-- Embedding of `issuesEqual` from `src/unnamed/part_004` lines 287-320 — the most
recent revision of the lint equality predicate.  Note the explicit
column comparison at lines 294-296. -/
def issuesEqual (dep : String) (a b : lintIssue) : Bool :=
  if a.FromLinter != b.FromLinter || a.Text != b.Text then false
  else if a.Pos.Line != b.Pos.Line then false
  else if a.Pos.Column != b.Pos.Column then false
  else if a.SourceLines.length != b.SourceLines.length then false
  else if getDepRelPath dep a.Pos.Filename != getDepRelPath dep b.Pos.Filename then false
  else srcLinesEqual a.SourceLines b.SourceLines

/-- Embedding of `issuesEqual` from `src/lint.go` lines 219-249 — the earlier
revision of the predicate, which does not compare the column. -/
def issuesEqualOld (dep : String) (a b : lintIssue) : Bool :=
  if a.FromLinter != b.FromLinter || a.Text != b.Text then false
  else if a.Pos.Line != b.Pos.Line then false
  else if a.SourceLines.length != b.SourceLines.length then false
  else if getDepRelPath dep a.Pos.Filename != getDepRelPath dep b.Pos.Filename then false
  else srcLinesEqual a.SourceLines b.SourceLines

/-- Helper: pairwise-trimmed-equal source lines satisfy the source-line
loop. -/
theorem srcLinesEqual_of_forall₂ {la lb : List String}
    (h : List.Forall₂ (fun s t => goTrimSpace s = goTrimSpace t) la lb) :
    srcLinesEqual la lb = true := by
  induction h with
  | nil => rfl
  | cons hst _ ih =>
    simp only [srcLinesEqual, hst, bne_self_eq_false, if_false]
    exact ih

/-- Helper: trimmed-line agreement is symmetric. -/
theorem forall₂_trim_symm {la lb : List String}
    (h : List.Forall₂ (fun s t => goTrimSpace s = goTrimSpace t) la lb) :
    List.Forall₂ (fun s t => goTrimSpace s = goTrimSpace t) lb la := by
  induction h with
  | nil => exact .nil
  | cons hst _ ih => exact .cons hst.symm ih

/-- C5 counterexample. Two lint issues that agree on linter id,
message text, line, filename and (trimmed) source lines but differ in
column are *not* equal under the most recent revision of
`issuesEqual` — the latest revision compares the column, so the claim
that it drops the column check is false. -/
theorem issuesEqual_latest_checks_column_cex :
    (lintIssue.mk "L" "T" ["\tfoo()"] ⟨"/c/d@v1/x.go", 0, 10, 1⟩).FromLinter =
        (lintIssue.mk "L" "T" ["\tfoo()"] ⟨"/c/d@v1/x.go", 0, 10, 2⟩).FromLinter ∧
    (lintIssue.mk "L" "T" ["\tfoo()"] ⟨"/c/d@v1/x.go", 0, 10, 1⟩).Text =
        (lintIssue.mk "L" "T" ["\tfoo()"] ⟨"/c/d@v1/x.go", 0, 10, 2⟩).Text ∧
    (lintIssue.mk "L" "T" ["\tfoo()"] ⟨"/c/d@v1/x.go", 0, 10, 1⟩).Pos.Line =
        (lintIssue.mk "L" "T" ["\tfoo()"] ⟨"/c/d@v1/x.go", 0, 10, 2⟩).Pos.Line ∧
    (lintIssue.mk "L" "T" ["\tfoo()"] ⟨"/c/d@v1/x.go", 0, 10, 1⟩).SourceLines =
        (lintIssue.mk "L" "T" ["\tfoo()"] ⟨"/c/d@v1/x.go", 0, 10, 2⟩).SourceLines ∧
    (lintIssue.mk "L" "T" ["\tfoo()"] ⟨"/c/d@v1/x.go", 0, 10, 1⟩).Pos.Column ≠
        (lintIssue.mk "L" "T" ["\tfoo()"] ⟨"/c/d@v1/x.go", 0, 10, 2⟩).Pos.Column ∧
    issuesEqual "d"
        (lintIssue.mk "L" "T" ["\tfoo()"] ⟨"/c/d@v1/x.go", 0, 10, 1⟩)
        (lintIssue.mk "L" "T" ["\tfoo()"] ⟨"/c/d@v1/x.go", 0, 10, 2⟩) = false := by
  refine ⟨rfl, rfl, rfl, rfl, by decide, ?_⟩
  rfl

/-- C5 (amended). The *most recent* revision of `issuesEqual`
(`src/unnamed/part_004`) does compare the column and returns false when
only the columns differ; it is the *earlier* revision
(`src/lint.go`, `issuesEqualOld`) that omits the column check and
returns true for issues agreeing on linter id, message text, line,
filename relative to the dependency root, and trimmed source lines,
even when the columns differ. -/
theorem issuesEqual_column_policy (dep : String) (a b : lintIssue)
    (hlinter : a.FromLinter = b.FromLinter) (htext : a.Text = b.Text)
    (hline : a.Pos.Line = b.Pos.Line)
    (hfile : getDepRelPath dep a.Pos.Filename = getDepRelPath dep b.Pos.Filename)
    (hsrc : List.Forall₂ (fun s t => goTrimSpace s = goTrimSpace t)
      a.SourceLines b.SourceLines)
    (hcol : a.Pos.Column ≠ b.Pos.Column) :
    issuesEqual dep a b = false ∧ issuesEqualOld dep a b = true := by
  have hlen : a.SourceLines.length = b.SourceLines.length := hsrc.length_eq
  have hc : (a.Pos.Column != b.Pos.Column) = true := bne_iff_ne.mpr hcol
  constructor
  · simp [issuesEqual, hlinter, htext, hline, hc]
  · simp [issuesEqualOld, hlinter, htext, hline, hlen, hfile,
      srcLinesEqual_of_forall₂ hsrc]

/-- C5 witness. Concrete issues differing only in column: the
latest predicate rejects them, the earlier one accepts them. -/
theorem issuesEqual_column_policy_witness :
    issuesEqual "d" (lintIssue.mk "L" "T" [] ⟨"f", 0, 1, 1⟩)
        (lintIssue.mk "L" "T" [] ⟨"f", 0, 1, 2⟩) = false ∧
    issuesEqualOld "d" (lintIssue.mk "L" "T" [] ⟨"f", 0, 1, 1⟩)
        (lintIssue.mk "L" "T" [] ⟨"f", 0, 1, 2⟩) = true := by
  exact issuesEqual_column_policy "d" _ _ rfl rfl rfl rfl .nil (by decide)

/-- C6 counterexample. Two lint issues that satisfy every agreement
listed by the claim — same linter id, text, line, source-line count,
filename, and source lines differing only in leading/trailing
whitespace — are still rejected by `issuesEqual` when their columns
differ, because the most recent revision also compares the column. -/
theorem issuesEqual_whitespace_column_cex :
    goTrimSpace "  foo()" = goTrimSpace "foo()  " ∧
    issuesEqual "d"
        (lintIssue.mk "L" "T" ["  foo()"] ⟨"x.go", 0, 10, 1⟩)
        (lintIssue.mk "L" "T" ["foo()  "] ⟨"x.go", 0, 10, 2⟩) = false := by
  exact ⟨by decide, rfl⟩

/-- C6 (amended). For lint issues that agree on linter id, message
text, line, *column*, and filename relative to the dependency root, and
whose source lines differ only in leading/trailing whitespace,
`issuesEqual` returns true, and diffing `[a]` against `[b]` classifies
the pair as stale (keeping the new record): removed and added are
empty. -/
theorem issuesEqual_whitespace_insensitive (dep : String) (a b : lintIssue)
    (hlinter : a.FromLinter = b.FromLinter) (htext : a.Text = b.Text)
    (hline : a.Pos.Line = b.Pos.Line) (hcol : a.Pos.Column = b.Pos.Column)
    (hfile : getDepRelPath dep a.Pos.Filename = getDepRelPath dep b.Pos.Filename)
    (hsrc : List.Forall₂ (fun s t => goTrimSpace s = goTrimSpace t)
      a.SourceLines b.SourceLines) :
    issuesEqual dep a b = true ∧
    processFindings [a] [b] (fun x y => issuesEqual dep x y) = ([], [b], []) := by
  have hlen : a.SourceLines.length = b.SourceLines.length := hsrc.length_eq
  have hab : issuesEqual dep a b = true := by
    simp [issuesEqual, hlinter, htext, hline, hcol, hlen, hfile,
      srcLinesEqual_of_forall₂ hsrc]
  have hba : issuesEqual dep b a = true := by
    simp [issuesEqual, hlinter, htext, hline, hcol, hlen, hfile,
      srcLinesEqual_of_forall₂ (forall₂_trim_symm hsrc)]
  refine ⟨hab, ?_⟩
  simp [processFindings, diffOldLoop, diffNewLoop, List.find?, hab, hba]

/-- C6 witness. The spec scenario: old issue with source line
`"  foo()"`, new issue with `"foo()  "`, otherwise identical — the diff
yields removed `= []`, stale `= [new issue]`, added `= []`. -/
theorem issuesEqual_whitespace_insensitive_witness :
    issuesEqual "d" (lintIssue.mk "L" "T" ["  foo()"] ⟨"f", 0, 10, 0⟩)
        (lintIssue.mk "L" "T" ["foo()  "] ⟨"f", 0, 10, 0⟩) = true ∧
    processFindings [lintIssue.mk "L" "T" ["  foo()"] ⟨"f", 0, 10, 0⟩]
        [lintIssue.mk "L" "T" ["foo()  "] ⟨"f", 0, 10, 0⟩]
        (fun x y => issuesEqual "d" x y) =
      ([], [lintIssue.mk "L" "T" ["foo()  "] ⟨"f", 0, 10, 0⟩], []) := by
  exact issuesEqual_whitespace_insensitive "d" _ _ rfl rfl rfl rfl rfl
    (.cons (by decide) .nil)

/-! ## Concurrent analyzer orchestrator

`inspectDep` from `src/unnamed/part_010` lines 291-358 (same shape in
`src/main.go` lines 195-262) runs the capability task and the lint task
concurrently; each task either sends its result on its own channel or a
wrapped error on the shared error channel; after the wait-group barrier
the error channel is drained and, if any error was collected, the
joined errors are returned with nil results.  The concurrency is
abstracted into the two task outcomes plus a Boolean choosing which
task's error lands first on the error channel (the only observable
scheduling freedom). -/

/-- The drained contents of `errCh` after both tasks finished:
wrapped errors of the failed tasks, in the arrival order chosen by the
scheduler. -/
def inspectDepErrCh {C L : Type} (capFirst : Bool)
    (capRes : Except String C) (lintRes : Except String L) : List String :=
  let capErrs := match capRes with
    | .error e => ["finding capabilities of dependency: " ++ e]
    | .ok _ => []
  let lintErrs := match lintRes with
    | .error e => ["linting dependency: " ++ e]
    | .ok _ => []
  if capFirst then capErrs ++ lintErrs else lintErrs ++ capErrs

/-- Post-barrier logic of `inspectDep`: if any error was collected the
joined error list is returned with nil capability and lint results,
otherwise the two channel payloads are returned with nil error. -/
def inspectDep {C L : Type} (capFirst : Bool)
    (capRes : Except String C) (lintRes : Except String L) :
    Option C × Option L × Option (List String) :=
  let inspectErrs := inspectDepErrCh capFirst capRes lintRes
  if inspectErrs.length ≠ 0 then (none, none, some inspectErrs)
  else (capRes.toOption, lintRes.toOption, none)

/-- C7. Inspection of one version is all-or-nothing: when both
tasks succeed, both result sets are returned with nil error; when
either task fails — under every scheduling order — the returned error
holds every underlying task failure (both, when both fail) and both
result slots are nil. -/
theorem inspectDep_all_or_nothing {C L : Type} (capFirst : Bool)
    (capRes : Except String C) (lintRes : Except String L) :
    (∀ c l, capRes = .ok c → lintRes = .ok l →
      inspectDep capFirst capRes lintRes = (some c, some l, none)) ∧
    (((∃ e, capRes = .error e) ∨ (∃ e, lintRes = .error e)) →
      ∃ errs, inspectDep capFirst capRes lintRes = (none, none, some errs) ∧
        (∀ e, capRes = .error e →
          ("finding capabilities of dependency: " ++ e) ∈ errs) ∧
        (∀ e, lintRes = .error e →
          ("linting dependency: " ++ e) ∈ errs)) := by
  cases capRes <;> cases lintRes <;> cases capFirst <;>
    simp [inspectDep, inspectDepErrCh, Except.toOption]

/-- C7 witness. The spec scenario: the capability task fails with
"boom", the lint task succeeds — the orchestrator returns nil results
and an error list containing the wrapped capability failure. -/
theorem inspectDep_all_or_nothing_witness :
    ∃ errs, inspectDep true (Except.error "boom" : Except String Nat)
        (Except.ok 0 : Except String Nat) = (none, none, some errs) ∧
      ("finding capabilities of dependency: " ++ "boom") ∈ errs := by
  obtain ⟨errs, h1, h2, _⟩ :=
    (inspectDep_all_or_nothing true (Except.error "boom" : Except String Nat)
      (Except.ok 0 : Except String Nat)).2 (Or.inl ⟨"boom", rfl⟩)
  exact ⟨errs, h1, h2 "boom" rfl⟩

/-! ## Manifest transaction manager

`restoreGoMod` from `src/unnamed/part_010` lines 546-575: open the live
`go.mod`/`go.sum` (fresh handles, offset 0), truncate both to zero,
seek both backup files to the start, then `io.Copy` each backup over
the corresponding live file.  Files are byte sequences with a read
offset. -/

structure goFile where
  content : List Nat
  offset : Nat

/-- Model of `f.Truncate(0)`: the content becomes empty (the offset is
untouched). -/
def truncateZero (f : goFile) : goFile := { f with content := [] }

/-- Model of `f.Seek(0, io.SeekStart)`. -/
def seekStart (f : goFile) : goFile := { f with offset := 0 }

/-- Model of `io.Copy(dst, src)`: read `src` from its offset to EOF and write
the bytes into `dst` at its offset, overwriting and extending as
needed. -/
def ioCopy (dst src : goFile) : goFile × goFile :=
  let data := src.content.drop src.offset
  ({ content := dst.content.take dst.offset ++ data ++
        dst.content.drop (dst.offset + data.length),
     offset := dst.offset + data.length },
   { src with offset := src.content.length })

/-- Embedding of `restoreGoMod`; returns the final contents of the live
`go.mod`/`go.sum` files. -/
def restoreGoMod (liveModContent liveSumContent : List Nat)
    (backupMod backupSum : goFile) : List Nat × List Nat :=
  let modFile : goFile := ⟨liveModContent, 0⟩
  let sumFile : goFile := ⟨liveSumContent, 0⟩
  let modFile := truncateZero modFile
  let sumFile := truncateZero sumFile
  let backupMod := seekStart backupMod
  let backupSum := seekStart backupSum
  let modFile := (ioCopy modFile backupMod).1
  let sumFile := (ioCopy sumFile backupSum).1
  (modFile.content, sumFile.content)

/-- C8. For all backup byte sequences B1 (`go.mod`) and B2
(`go.sum`), whatever the live files were mutated to (any contents, of
any length) and wherever the backup read offsets were left, restore
makes the live files byte-identical to B1 and B2. -/
theorem restoreGoMod_restores (liveModContent liveSumContent : List Nat)
    (b1 b2 : List Nat) (o1 o2 : Nat) :
    restoreGoMod liveModContent liveSumContent ⟨b1, o1⟩ ⟨b2, o2⟩ = (b1, b2) := by
  simp [restoreGoMod, truncateZero, seekStart, ioCopy]

/-! ## Transitive change resolver

`compareDepVersionsRecursively` from `src/unnamed/part_010` lines
366-433.  After pinning and tidying both versions the function walks
`newModFile.Require` and, for each entry, scans `oldModFile.Require`;
when the walked path is the target dependency itself it validates that
the resolved versions equal the requested ones, returning a fatal error
on mismatch; otherwise it collects the changed dependencies.  The
per-dependency inspections run only after this loop, consuming the
collected list, so an error here means no inspection runs. -/

structure modRequire where
  path : String
  version : String
deriving DecidableEq

structure changedDep where
  dep : String
  oldVer : String
  newVer : String
deriving DecidableEq

/-- Inner loop over `oldModFile.Require` for one entry of
`newModFile.Require`: skips non-matching paths, raises the
version-consistency errors for the target dependency, and on a version
change yields the changed-dependency record (breaking the loop). -/
def compareOldLoop (dep oldVer newVer : String) (newDep : modRequire) :
    List modRequire → Bool → Except String (Bool × Option changedDep)
  | [], found => .ok (found, none)
  | oldDep :: rest, found =>
    if oldDep.path != newDep.path then
      compareOldLoop dep oldVer newVer newDep rest found
    else if oldDep.path == dep && oldDep.version != oldVer then
      .error ("cannot compare: after getting " ++ dep ++ "@" ++ oldVer ++
        " and tidying the module version is " ++ oldDep.version)
    else if oldDep.path == dep && newDep.version != newVer then
      .error ("cannot compare: after getting " ++ dep ++ "@" ++ newVer ++
        " and tidying the module version is " ++ newDep.version)
    else if oldDep.version != newDep.version then
      .ok (true, some ⟨oldDep.path, oldDep.version, newDep.version⟩)
    else compareOldLoop dep oldVer newVer newDep rest true

/-- The `depsToInspect` phase of `compareDepVersionsRecursively`: the
collected changed dependencies (an entry with `oldVer = ""` marks a
newly introduced dependency), or the fatal version-consistency error. -/
def compareDepVersionsRecursively (dep oldVer newVer : String)
    (oldReq : List modRequire) : List modRequire → Except String (List changedDep)
  | [] => .ok []
  | newDep :: rest =>
    match compareOldLoop dep oldVer newVer newDep oldReq false with
    | .error e => .error e
    | .ok (found, add) =>
      match compareDepVersionsRecursively dep oldVer newVer oldReq rest with
      | .error e => .error e
      | .ok tail =>
        .ok (add.toList ++
          (if found then [] else [⟨newDep.path, "", newDep.version⟩]) ++ tail)

/-- Helper: the inner loop raises the version-consistency error when
the walked new entry is the target dependency, the old manifest records
it, and either recorded version differs from the requested one. -/
theorem compareOldLoop_mismatch_error (dep oldVer newVer : String)
    (newDep : modRequire) (hpath : newDep.path = dep) :
    ∀ (oldReq : List modRequire) (o : modRequire) (found : Bool),
      oldReq.find? (fun r => r.path == dep) = some o →
      (o.version ≠ oldVer ∨ newDep.version ≠ newVer) →
      ∃ msg, compareOldLoop dep oldVer newVer newDep oldReq found = .error msg := by
  intro oldReq
  induction oldReq with
  | nil => intro o found hfind _; simp [List.find?] at hfind
  | cons h rest ih =>
    intro o found hfind hmismatch
    by_cases hpd : h.path = dep
    · have hb : (h.path == dep) = true := by simpa using hpd
      simp only [List.find?_cons, hb] at hfind
      have ho : h = o := by injection hfind
      subst ho
      have hnotne : (h.path != newDep.path) = false := by
        simp [hpd, hpath]
      rcases hmismatch with hv | hv
      · have hvb : (h.version != oldVer) = true := bne_iff_ne.mpr hv
        simp only [compareOldLoop, hnotne, hb, hvb]
        simp only [Bool.false_eq_true, if_false, Bool.true_and, if_true]
        exact ⟨_, rfl⟩
      · by_cases hov : h.version = oldVer
        · have hovb : (h.version != oldVer) = false := by simp [hov]
          have hvb : (newDep.version != newVer) = true := bne_iff_ne.mpr hv
          simp only [compareOldLoop, hnotne, hb, hovb, hvb]
          simp only [Bool.false_eq_true, if_false, Bool.true_and, if_true,
            Bool.and_false]
          exact ⟨_, rfl⟩
        · have hvb : (h.version != oldVer) = true := bne_iff_ne.mpr hov
          simp only [compareOldLoop, hnotne, hb, hvb]
          simp only [Bool.false_eq_true, if_false, Bool.true_and, if_true]
          exact ⟨_, rfl⟩
    · have hb : (h.path == dep) = false := by simpa using hpd
      simp only [List.find?_cons, hb] at hfind
      have hne : (h.path != newDep.path) = true := by
        rw [bne_iff_ne]
        rw [hpath]
        exact hpd
      rcases ih o found hfind hmismatch with ⟨msg, hmsg⟩
      refine ⟨msg, ?_⟩
      simpa only [compareOldLoop, hne, if_true] using hmsg

/-- C9. In a recursive two-version comparison, if the old or new
manifest snapshot records, for the target dependency, a version
different from the one the caller requested, the changed-dependency
collection fails with a fatal error — so no per-dependency inspection
(which only consumes the successfully collected list) ever runs. -/
theorem compareDepVersionsRecursively_version_check
    (dep oldVer newVer : String) (oldReq newReq : List modRequire)
    (o n : modRequire)
    (ho : oldReq.find? (fun r => r.path == dep) = some o)
    (hn : newReq.find? (fun r => r.path == dep) = some n)
    (hmismatch : o.version ≠ oldVer ∨ n.version ≠ newVer) :
    ∃ msg, compareDepVersionsRecursively dep oldVer newVer oldReq newReq =
      .error msg := by
  induction newReq with
  | nil => simp [List.find?] at hn
  | cons h rest ih =>
    by_cases hpd : h.path = dep
    · have hb : (h.path == dep) = true := by simpa using hpd
      simp only [List.find?_cons, hb] at hn
      have hh : h = n := by injection hn
      subst hh
      rcases compareOldLoop_mismatch_error dep oldVer newVer h hpd oldReq o
        false ho hmismatch with ⟨msg, hmsg⟩
      refine ⟨msg, ?_⟩
      simp only [compareDepVersionsRecursively, hmsg]
    · have hb : (h.path == dep) = false := by simpa using hpd
      simp only [List.find?_cons, hb] at hn
      rcases ih hn with ⟨msg, hmsg⟩
      cases hloop : compareOldLoop dep oldVer newVer h oldReq false with
      | error e =>
        refine ⟨e, ?_⟩
        simp only [compareDepVersionsRecursively, hloop]
      | ok p =>
        refine ⟨msg, ?_⟩
        simp only [compareDepVersionsRecursively, hloop, hmsg]

/-- C9 witness. The spec scenario: versions `v1.2.3 → v1.2.4`
requested, but after pin+tidy the new manifest records `v1.2.5`; the
comparison fails before any inspection. -/
theorem compareDepVersionsRecursively_version_check_witness :
    ∃ msg, compareDepVersionsRecursively "d" "v1.2.3" "v1.2.4"
        [⟨"d", "v1.2.3"⟩] [⟨"d", "v1.2.5"⟩] = .error msg := by
  exact compareDepVersionsRecursively_version_check "d" "v1.2.3" "v1.2.4"
    [⟨"d", "v1.2.3"⟩] [⟨"d", "v1.2.5"⟩] ⟨"d", "v1.2.3"⟩ ⟨"d", "v1.2.5"⟩
    (by decide) (by decide) (Or.inr (by decide))

/-! ## Linter message trimming

`trimLinterMsg` from `src/unnamed/part_004` lines 263-269 (identical in
`src/lint.go` lines 179-185): trim whitespace, then inspect
`msg[len(msg)-1]` — an index expression that is out of range (panics)
when the trimmed message is empty, modelled as `none`. -/

/-- Embedding of `trimLinterMsg`; `none` models the out-of-range index panic on an
empty trimmed message; otherwise the trimmed message, with one trailing
`'.'` removed when present. -/
def trimLinterMsg (msg : String) : Option String :=
  match (goTrimSpace msg).data.getLast? with
  | none => none
  | some c =>
    if c == '.' then some ⟨(goTrimSpace msg).data.dropLast⟩
    else some ⟨(goTrimSpace msg).data⟩

/-- Helper: trimming yields the empty string exactly when every
character is whitespace. -/
theorem goTrimSpace_nil_iff (s : String) :
    (goTrimSpace s).data = [] ↔ ∀ c ∈ s.data, goIsSpace c = true := by
  unfold goTrimSpace
  simp only [List.reverse_eq_nil_iff, List.dropWhile_eq_nil_iff,
    List.mem_reverse]
  constructor
  · intro h c hc
    have hsplit := List.takeWhile_append_dropWhile goIsSpace s.data
    rw [← hsplit] at hc
    rcases List.mem_append.mp hc with htake | hdrop
    · exact List.mem_takeWhile_imp htake
    · exact h c hdrop
  · intro h c hc
    exact h c (List.dropWhile_sublist goIsSpace |>.mem hc)

/-- C10. `trimLinterMsg` is safe exactly on messages containing a
non-whitespace character: for such a message it returns the trimmed
message with a single trailing `'.'` removed when present, while for an
empty or all-whitespace message the index `msg[len(msg)-1]` is out of
range (modelled as `none`), so callers must never pass such a
message. -/
theorem trimLinterMsg_safety (msg : String) :
    ((∃ c ∈ msg.data, goIsSpace c = false) →
      trimLinterMsg msg =
        some (if (goTrimSpace msg).data.getLast? == some '.'
          then ⟨(goTrimSpace msg).data.dropLast⟩ else goTrimSpace msg)) ∧
    ((∀ c ∈ msg.data, goIsSpace c = true) → trimLinterMsg msg = none) := by
  constructor
  · rintro ⟨c, hc, hcs⟩
    have hne : (goTrimSpace msg).data ≠ [] := by
      intro hnil
      have := (goTrimSpace_nil_iff msg).mp hnil c hc
      rw [hcs] at this
      exact Bool.false_ne_true this
    rcases hlast : (goTrimSpace msg).data.getLast? with _ | d
    · exact absurd (List.getLast?_eq_none_iff.mp hlast) hne
    · unfold trimLinterMsg
      rw [hlast]
      cases hd : d == '.' with
      | true =>
        have : (some d == some '.') = true := by
          simpa using hd
        simp only [hd, if_true, this]
      | false =>
        have : (some d == some '.') = false := by
          simpa using hd
        simp only [hd, this, Bool.false_eq_true, if_false]
  · intro h
    have hnil : (goTrimSpace msg).data = [] := (goTrimSpace_nil_iff msg).mpr h
    unfold trimLinterMsg
    rw [hnil]
    rfl

/-- C10 witness: the message `" hi. "` contains non-whitespace characters and
trims to `"hi."`, whose trailing dot is removed; the all-whitespace
message `" "` hits the out-of-range index. -/
theorem trimLinterMsg_safety_witness :
    (∃ c ∈ (" hi. " : String).data, goIsSpace c = false) ∧
    trimLinterMsg " hi. " = some "hi" ∧
    trimLinterMsg " " = none := by
  refine ⟨by decide, ?_, (trimLinterMsg_safety " ").2 (by decide)⟩
  have h := (trimLinterMsg_safety " hi. ").1 (by decide)
  exact h.trans (by decide)
